import Mathlib

/-!
Shallow embedding of `sk_dsp_comm/synchronization.py` (digital-communications
synchronization module): numerically controlled oscillator, accumically based
loop filters, the quadricorrelator discriminator, the closed-loop PLL/AFC
composites, the batch symbol-timing (`NDA_symb_sync`) and carrier
(`DD_carrier_sync`) recovery routines, and the analog-equivalent `PLL_cbb`
model.  Python floats are modelled as exact real numbers and numpy unsigned
integers as mathematical integers reduced modulo the dtype word size.
-/

noncomputable section

namespace Sync

/-- numpy `rint`: round a real to the nearest integer, ties to even. -/
def rintR (x : ℝ) : ℤ :=
  if Int.fract x = 1 / 2 then (if Even ⌊x⌋ then ⌊x⌋ else ⌊x⌋ + 1) else round x

/-- C-style cast of a real to an integer: truncation toward zero. -/
def truncR (x : ℝ) : ℤ := if 0 ≤ x then ⌊x⌋ else -⌊-x⌋

/-- Cast of a real to an unsigned numpy integer of word size `w` bits:
truncate toward zero, then wrap modulo `2 ^ w`. -/
def toUnsigned (w : ℕ) (x : ℝ) : ℤ := truncR x % (2 ^ w : ℤ)

/-- numpy `mod` for real operands (`x - y * floor (x / y)`). -/
def pyMod (x y : ℝ) : ℝ := x - y * ⌊x / y⌋

theorem rintR_intCast (n : ℤ) : rintR (n : ℝ) = n := by
  have h0 : Int.fract ((n : ℝ)) = 0 := Int.fract_intCast n
  have : (0 : ℝ) ≠ 1 / 2 := by norm_num
  simp [rintR, h0, this]

theorem pyMod_nonneg_lt (x y : ℝ) (hy : 0 < y) : 0 ≤ pyMod x y ∧ pyMod x y < y := by
  have hxy : y * (x / y) = x := by
    field_simp
  have hfr : pyMod x y = y * Int.fract (x / y) := by
    rw [pyMod, Int.fract, mul_sub, hxy]
  constructor
  · rw [hfr]
    exact mul_nonneg hy.le (Int.fract_nonneg _)
  · rw [hfr]
    calc y * Int.fract (x / y) < y * 1 :=
          (mul_lt_mul_left hy).2 (Int.fract_lt_one _)
    _ = y := mul_one y

/-! ## Numerically controlled oscillator (`class NCO`) -/

/-- The numpy dtype width chosen by `NCO.__init__`: the narrowest of
uint8/uint16/uint32/uint64 that holds `n_bits` bits. -/
def dtypeBits (n : ℕ) : ℕ :=
  if n ≤ 8 then 8 else if n ≤ 16 then 16 else if n ≤ 32 then 32 else 64

theorem le_dtypeBits {n : ℕ} (h : n ≤ 64) : n ≤ dtypeBits n := by
  unfold dtypeBits
  split
  · omega
  · split
    · omega
    · split <;> omega

structure NCO where
  n_bits : ℕ
  fcenter_hat : ℝ
  fs : ℝ
  delta_k : ℤ
  kc : ℝ
  k_hat : ℤ
  k_old : ℤ

/-- Body of `NCO.__init__` after the dtype selection.  Note the source computes
`self.dtype(np.rint(fcenter * self.max_bits_const) / fs)`: `rint` is applied
before the division by `fs`, and the quotient is then truncated by the dtype
cast. -/
def NCO.init (fcenter fs kc : ℝ) (state_init_k : ℤ) (n_bits : ℕ) : NCO :=
  { n_bits := n_bits
    fcenter_hat := fcenter
    fs := fs
    delta_k := toUnsigned (dtypeBits n_bits) ((rintR (fcenter * 2 ^ n_bits) : ℝ) / fs)
    kc := kc
    k_hat := state_init_k % (2 ^ dtypeBits n_bits : ℤ)
    k_old := 0 }

/-- `NCO.__init__` including its bit-width guard
(`raise NotImplementedError` for more than 64 bits). -/
def NCO.make (fcenter fs kc : ℝ) (state_init_k : ℤ) (n_bits : ℕ) : Except String NCO :=
  if n_bits ≤ 64 then .ok (NCO.init fcenter fs kc state_init_k n_bits)
  else .error "NotImplementedError: no dtype implemented for this bit size"

/-- `NCO.update`: the phase accumulator advances by the frequency word plus the
scaled error input, rounded by `np.rint` and wrapped by the dtype cast. -/
def NCO.update (s : NCO) (e_in : ℝ) : NCO :=
  { s with
    k_old := s.k_hat
    k_hat :=
      rintR ((s.k_hat : ℝ) + (s.delta_k : ℝ) + s.kc * 2 ^ s.n_bits * e_in) %
        (2 ^ dtypeBits s.n_bits : ℤ) }

/-- `NCO.out_exp`. -/
def NCO.outExp (s : NCO) : ℂ :=
  Complex.exp (Complex.I * (2 * Real.pi * (s.k_hat : ℝ) / 2 ^ s.n_bits))

/-- `NCO.pos_edge`; `none` models an omitted `thresh` argument.  The source
guard is `thresh if thresh else self.dtype(self.max_bits_const >> 1)`, and
Python truthiness sends both `None` and `0` to the default. -/
def NCO.posEdge (s : NCO) (thresh : Option ℝ) : Bool :=
  let dflt : ℝ := ((2 ^ s.n_bits / 2) % 2 ^ dtypeBits s.n_bits : ℕ)
  let thr : ℝ :=
    match thresh with
    | none => dflt
    | some t => if t = 0 then dflt else t
  if (s.k_old : ℝ) - (s.k_hat : ℝ) > thr then true else false

/-- `NCO.set_fcenter`. -/
def NCO.setFcenter (s : NCO) (fcenter_new : ℝ) : NCO :=
  let dk : ℤ := rintR (fcenter_new * 2 ^ s.n_bits / s.fs) % (2 ^ dtypeBits s.n_bits : ℤ)
  { s with delta_k := dk, fcenter_hat := (dk : ℝ) / 2 ^ s.n_bits * s.fs }

/-- C1: for an NCO of bit width 8, 16, 32 or 64 and any error input `e`,
`update e` stores the old accumulator in `k_old` and sets `k_hat` to the
previous `k_hat` plus `delta_k` plus `kc * 2 ^ n_bits * e`, rounded to the
nearest integer and wrapped modulo `2 ^ n_bits`. -/
theorem NCO_update_advances_k_hat (s : NCO) (e : ℝ)
    (h : s.n_bits = 8 ∨ s.n_bits = 16 ∨ s.n_bits = 32 ∨ s.n_bits = 64) :
    (s.update e).k_hat =
      rintR ((s.k_hat : ℝ) + (s.delta_k : ℝ) + s.kc * 2 ^ s.n_bits * e) %
        (2 ^ s.n_bits : ℤ) ∧
    (s.update e).k_old = s.k_hat := by
  have hd : dtypeBits s.n_bits = s.n_bits := by
    rcases h with h | h | h | h <;> simp [dtypeBits, h]
  exact ⟨by rw [NCO.update, hd], rfl⟩

/-- Witness for C1 at a concrete oscillator and error input. -/
theorem NCO_update_advances_k_hat_wit :
    ((NCO.init 1 4 1 0 8).n_bits = 8 ∨ (NCO.init 1 4 1 0 8).n_bits = 16 ∨
      (NCO.init 1 4 1 0 8).n_bits = 32 ∨ (NCO.init 1 4 1 0 8).n_bits = 64) ∧
    (((NCO.init 1 4 1 0 8).update 0).k_hat =
      rintR (((NCO.init 1 4 1 0 8).k_hat : ℝ) + ((NCO.init 1 4 1 0 8).delta_k : ℝ) +
          (NCO.init 1 4 1 0 8).kc * 2 ^ (NCO.init 1 4 1 0 8).n_bits * 0) %
        (2 ^ (NCO.init 1 4 1 0 8).n_bits : ℤ) ∧
      ((NCO.init 1 4 1 0 8).update 0).k_old = (NCO.init 1 4 1 0 8).k_hat) :=
  ⟨Or.inl rfl, NCO_update_advances_k_hat (NCO.init 1 4 1 0 8) 0 (Or.inl rfl)⟩

/-- C3 fails on the code: `NCO.__init__` parenthesizes the rounding as
`np.rint(fcenter * 2 ** n_bits) / fs` — rounding before the division — and the
quotient is then truncated by the dtype cast, while `set_fcenter` computes
`np.rint(fcenter * 2 ** n_bits / fs)`, rounding the quotient to the nearest
integer as the claim specifies.  At `fcenter = 5`, `fs = 3`, `n_bits = 8` the
constructor stores `trunc(1280 / 3) mod 256 = 170` while `set_fcenter` stores
`round(1280 / 3) mod 256 = 171`. -/
theorem NCO_init_delta_k_ne_setFcenter :
    (NCO.init 5 3 1 0 8).delta_k = 170 ∧
    ((NCO.init 5 3 1 0 8).setFcenter 5).delta_k = 171 ∧
    rintR ((5 : ℝ) * 2 ^ 8 / 3) % (2 ^ 8 : ℤ) = 171 := by
  have hfl : ⌊((1280 : ℤ) : ℝ) / 3⌋ = 426 := by
    apply Int.floor_eq_iff.2
    constructor <;> norm_num
  have hfr : Int.fract (((1280 : ℤ) : ℝ) / 3) = 2 / 3 := by
    rw [Int.fract, hfl]
    norm_num
  have hne : Int.fract (((1280 : ℤ) : ℝ) / 3) ≠ 1 / 2 := by
    rw [hfr]
    norm_num
  have hrint : rintR (((1280 : ℤ) : ℝ) / 3) = 427 := by
    rw [rintR, if_neg hne, round_eq]
    apply Int.floor_eq_iff.2
    constructor <;> norm_num
  have h5 : ((5 : ℝ) * 2 ^ 8) = ((1280 : ℤ) : ℝ) := by norm_num
  have h53 : ((5 : ℝ) * 2 ^ 8 / 3) = ((1280 : ℤ) : ℝ) / 3 := by norm_num
  refine ⟨?_, ?_, ?_⟩
  · show toUnsigned (dtypeBits 8) ((rintR ((5 : ℝ) * 2 ^ 8) : ℝ) / 3) = 170
    rw [h5, rintR_intCast]
    have hnn : (0 : ℝ) ≤ ((1280 : ℤ) : ℝ) / 3 := by norm_num
    rw [toUnsigned, truncR, if_pos hnn, hfl]
    norm_num [dtypeBits]
  · show rintR ((5 : ℝ) * 2 ^ 8 / 3) % (2 ^ dtypeBits 8 : ℤ) = 171
    rw [h53, hrint]
    norm_num [dtypeBits]
  · rw [h53, hrint]
    norm_num

/-- A concrete oscillator state as reached right after a wrap event:
`k_old = 1`, `k_hat = 0`. -/
def cexNCO : NCO := ⟨8, 0, 1, 0, 1, 0, 1⟩

/-- C8 fails on the code for an explicit zero threshold: the source guard
`thresh if thresh else self.dtype(self.max_bits_const >> 1)` treats a passed
`thresh = 0` as absent, so `pos_edge(0)` compares against the half-scale
default (128 here) and returns `False` even though the signed difference
`k_old - k_hat = 1` exceeds the requested threshold `0`. -/
theorem NCO_posEdge_zero_thresh_cex :
    cexNCO.posEdge (some 0) = false ∧
    (cexNCO.k_old : ℝ) - (cexNCO.k_hat : ℝ) > 0 := by
  constructor
  · rw [NCO.posEdge]
    norm_num [cexNCO, dtypeBits]
  · norm_num [cexNCO]

/-- C8 amended: for every oscillator state with `1 ≤ n_bits ≤ 64` and every
NONZERO threshold `t`, `pos_edge t` reports true exactly when the signed real
difference `k_old - k_hat` exceeds `t`; when the threshold is omitted — or
passed as `0`, which Python truthiness treats the same as omitted — the
half-scale default `2 ^ (n_bits - 1)` is used instead. -/
theorem NCO_posEdge_spec (s : NCO) (t : ℝ) (h1 : 1 ≤ s.n_bits)
    (h64 : s.n_bits ≤ 64) (ht : t ≠ 0) :
    (s.posEdge (some t) = true ↔ (s.k_old : ℝ) - (s.k_hat : ℝ) > t) ∧
    (s.posEdge none = true ↔
      (s.k_old : ℝ) - (s.k_hat : ℝ) > 2 ^ (s.n_bits - 1)) ∧
    s.posEdge (some 0) = s.posEdge none := by
  have hdef : (((2 ^ s.n_bits / 2) % 2 ^ dtypeBits s.n_bits : ℕ) : ℝ) =
      2 ^ (s.n_bits - 1) := by
    have hpow : 2 ^ s.n_bits = 2 * 2 ^ (s.n_bits - 1) := by
      conv_lhs => rw [← Nat.sub_add_cancel h1]
      rw [pow_succ]
      ring
    have hdiv : 2 ^ s.n_bits / 2 = 2 ^ (s.n_bits - 1) := by
      rw [hpow]
      omega
    have hlt : 2 ^ (s.n_bits - 1) < 2 ^ dtypeBits s.n_bits :=
      Nat.pow_lt_pow_right (by norm_num)
        (lt_of_lt_of_le (Nat.sub_lt h1 one_pos) (le_dtypeBits h64))
    rw [hdiv, Nat.mod_eq_of_lt hlt]
    push_cast
    rfl
  refine ⟨?_, ?_, ?_⟩
  · rw [NCO.posEdge]
    simp only [if_neg ht]
    split <;> simp_all
  · rw [NCO.posEdge]
    simp only [hdef]
    split <;> simp_all
  · rw [NCO.posEdge, NCO.posEdge]
    simp

/-- Witness for the amended C8 at a concrete state and threshold. -/
theorem NCO_posEdge_spec_wit :
    (1 ≤ cexNCO.n_bits ∧ cexNCO.n_bits ≤ 64 ∧ (5 : ℝ) ≠ 0) ∧
    ((cexNCO.posEdge (some 5) = true ↔
        (cexNCO.k_old : ℝ) - (cexNCO.k_hat : ℝ) > 5) ∧
      (cexNCO.posEdge none = true ↔
        (cexNCO.k_old : ℝ) - (cexNCO.k_hat : ℝ) > 2 ^ (cexNCO.n_bits - 1)) ∧
      cexNCO.posEdge (some 0) = cexNCO.posEdge none) :=
  ⟨⟨by norm_num [cexNCO], by norm_num [cexNCO], by norm_num⟩,
    NCO_posEdge_spec cexNCO 5 (by norm_num [cexNCO]) (by norm_num [cexNCO])
      (by norm_num)⟩

/-! ## Accumulator and loop filters -/

structure Accumulator where
  m_state : ℝ

/-- `Accumulator.update`. -/
def Accumulator.update (a : Accumulator) (x_in : ℝ) : Accumulator :=
  ⟨a.m_state + x_in⟩

/-- `Accumulator.out`. -/
def Accumulator.out (a : Accumulator) : ℝ := a.m_state

structure LoopFilter1 where
  alpha2 : ℝ
  accum : Accumulator

/-- `LoopFilter1.filter`: the output together with the updated filter state. -/
def LoopFilter1.filterStep (f : LoopFilter1) (x : ℝ) : ℝ × LoopFilter1 :=
  let acc := f.accum.update x
  (f.alpha2 * acc.out, { f with accum := acc })

structure LoopFilter2 where
  alpha1 : ℝ
  alpha2 : ℝ
  accum : Accumulator

/-- `LoopFilter2.filter`: the output together with the updated filter state. -/
def LoopFilter2.filterStep (f : LoopFilter2) (x : ℝ) : ℝ × LoopFilter2 :=
  let acc := f.accum.update x
  (f.alpha1 * x + f.alpha2 * acc.out, { f with accum := acc })

/-- Feed a list of inputs through an order-2 loop filter, collecting the
outputs. -/
def runLF2 (f : LoopFilter2) : List ℝ → List ℝ
  | [] => []
  | x :: xs =>
    let s := f.filterStep x
    s.1 :: runLF2 s.2 xs

/-- `loop_parms1` with the default `bn_mode = True`. -/
def loop_parms1 (Bn kd fs : ℝ) : ℝ :=
  (1 - Real.exp (-4 * Bn / fs)) / (1 * kd)

/-- `loop_parms2`. -/
def loop_parms2 (bn zeta kd fs : ℝ) : ℝ × ℝ :=
  let wn := 2 * bn * (zeta + 1 / (4 * zeta))⁻¹
  ((2 * zeta * wn / fs + 1 / 2 * (wn / fs) ^ 2) / (1 * kd),
    (wn / fs) ^ 2 / (1 * kd))

/-- C6: the order-2 loop filter is `alpha1 * current input + alpha2 *
(initial accumulator state + accumulated sum of all inputs so far)`.  At
`s = 0`, `xs = [x1, x2]`, `n = 1` this is the claimed two-call identity
`alpha1 * x2 + alpha2 * (x1 + x2)`. -/
theorem LF2_output_formula (a1 a2 s : ℝ) (xs : List ℝ) (n : ℕ)
    (h : n < xs.length) :
    (runLF2 ⟨a1, a2, ⟨s⟩⟩ xs).getD n 0 =
      a1 * xs.getD n 0 + a2 * (s + (xs.take (n + 1)).sum) := by
  induction xs generalizing n s with
  | nil => simp at h
  | cons x xs ih =>
    cases n with
    | zero =>
      simp [runLF2, LoopFilter2.filterStep, Accumulator.update, Accumulator.out]
    | succ n =>
      have hn : n < xs.length := by simpa using h
      have := ih (s + x) n hn
      simp only [runLF2, LoopFilter2.filterStep, Accumulator.update,
        Accumulator.out, List.getD_cons_succ, List.take_succ_cons,
        List.sum_cons]
      rw [this]
      ring

/-- Witness for C6: the two-call identity at `alpha1 = 2`, `alpha2 = 7`,
inputs `[3, 5]`. -/
theorem LF2_output_formula_wit :
    1 < ([(3 : ℝ), 5]).length ∧
    (runLF2 ⟨2, 7, ⟨0⟩⟩ [(3 : ℝ), 5]).getD 1 0 = 2 * 5 + 7 * (3 + 5) := by
  refine ⟨by norm_num, ?_⟩
  have := LF2_output_formula 2 7 0 [(3 : ℝ), 5] 1 (by norm_num)
  simpa using this

/-! ## Decision-directed carrier recovery (`DD_carrier_sync`) -/

/-- Cast to numpy `int16`: wrap into `[-2^15, 2^15)`. -/
def int16 (t : ℤ) : ℤ := (t + 2 ^ 15) % 2 ^ 16 - 2 ^ 15

/-- numpy `std` of a complex vector:
`sqrt(mean(abs(x - mean(x)) ** 2))`. -/
def listStd (l : List ℂ) : ℝ :=
  Real.sqrt ((l.map fun x => Complex.normSq (x - l.sum / (l.length : ℂ))).sum /
    (l.length : ℝ))

/-- The hard decision `a_hat[nn]` of `DD_carrier_sync` (source lines 223-249).
An unsupported modulation order or family prints a message and leaves the
zero-initialized array entry in place. -/
def ddDecision (M : ℕ) (mt : String) (zp : ℂ) : ℂ :=
  if mt = "MPSK" then
    if M = 2 then ((Real.sign zp.re : ℝ) : ℂ)
    else if M = 4 then
      ((Real.sign zp.re : ℝ) + (Real.sign zp.im : ℝ) * Complex.I) /
        (Real.sqrt 2 : ℝ)
    else if 4 < M then
      Complex.exp (Complex.I *
        ((2 * Real.pi * ((rintR (zp.arg * M / 2 / Real.pi) % (M : ℤ) : ℤ) : ℝ) / M : ℝ)))
    else 0
  else if mt = "MQAM" then
    if M = 2 ∨ M = 4 ∨ M = 16 ∨ M = 64 ∨ M = 256 then
      let x_m : ℝ := if M = 2 then 1 else Real.sqrt M - 1
      let sh : ℂ := (zp + (x_m : ℝ) * (1 + Complex.I)) / 2
      let aI : ℤ := int16 (truncR (max 0 (min ((rintR sh.re : ℤ) : ℝ) x_m)))
      let aQ : ℤ := int16 (truncR (max 0 (min ((rintR sh.im : ℤ) : ℝ) x_m)))
      2 * ((aI : ℂ) + (aQ : ℂ) * Complex.I) - (x_m : ℝ) * (1 + Complex.I)
    else 0
  else 0

/-- The phase-error detector `e_phi[nn]` (source lines 250-263).  An
unsupported detector type prints a message and leaves the zero-initialized
array entry in place. -/
def ddError (ty : ℤ) (zp ah : ℂ) : ℝ :=
  if ty = 0 then zp.im * ah.re - zp.re * ah.im
  else if ty = 1 then (Complex.exp (Complex.I * ((zp.arg - ah.arg : ℝ) : ℂ))).arg
  else if ty = 2 then (zp / ah).im
  else 0

/-- The per-sample loop of `DD_carrier_sync`, threading the integrator state
`vi` and the phase estimate `theta_hat`; returns
`(z_prime, a_hat, e_phi, theta_h)`. -/
def ddRun (M : ℕ) (mt : String) (ty : ℤ) (ol : Bool) (K1 K2 : ℝ) :
    List ℂ → ℝ → ℝ → List ℂ × List ℂ × List ℝ × List ℝ
  | [], _, _ => ([], [], [], [])
  | x :: rest, vi, th => by
    exact
      let zp := x * Complex.exp (-Complex.I * (th : ℂ))
      let ah := ddDecision M mt zp
      let e := ddError ty zp ah
      let vi2 := vi + K2 * e
      let v := K1 * e + vi2
      let th2 := pyMod (th + v) (2 * Real.pi)
      let r := ddRun M mt ty ol K1 K2 rest vi2 (if ol then 0 else th2)
      (zp :: r.1, ah :: r.2.1, e :: r.2.2.1, th2 :: r.2.2.2)

/-- `DD_carrier_sync`: returns `(z_prime, a_hat, e_phi, theta_h)`. -/
def DD_carrier_sync (z : List ℂ) (M : ℕ) (BnTs zeta : ℝ) (mt : String)
    (ty : ℤ) (ol : Bool) : List ℂ × List ℂ × List ℝ × List ℝ :=
  let Ns : ℝ := 1
  let Kp : ℝ := 1
  let K0 : ℝ := 1
  let K1 : ℝ := 4 * zeta / (zeta + 1 / (4 * zeta)) * BnTs / Ns / Kp / K0
  let K2 : ℝ := 4 / (zeta + 1 / (4 * zeta)) ^ 2 * (BnTs / Ns) ^ 2 / Kp / K0
  let z_scale : ℝ := listStd z * Real.sqrt (3 / (2 * ((M : ℝ) - 1)))
  let zIn := if mt = "MQAM" then z.map fun x => x / (z_scale : ℂ) else z
  let r := ddRun M mt ty ol K1 K2 zIn 0 0
  (if mt = "MQAM" then r.1.map fun x => x * (z_scale : ℂ) else r.1,
    r.2.1, r.2.2.1, r.2.2.2)

theorem ddRun_theta_mem (M : ℕ) (mt : String) (ty : ℤ) (ol : Bool)
    (K1 K2 : ℝ) (zIn : List ℂ) (vi th : ℝ) {y : ℝ}
    (hy : y ∈ (ddRun M mt ty ol K1 K2 zIn vi th).2.2.2) :
    0 ≤ y ∧ y < 2 * Real.pi := by
  induction zIn generalizing vi th with
  | nil => simp [ddRun] at hy
  | cons x rest ih =>
    rw [ddRun] at hy
    simp only [List.mem_cons] at hy
    rcases hy with hy | hy
    · subst hy
      exact pyMod_nonneg_lt _ _ (by positivity)
    · exact ih _ _ hy

theorem ddRun_open_loop_id (M : ℕ) (mt : String) (ty : ℤ) (K1 K2 : ℝ)
    (zIn : List ℂ) (vi : ℝ) :
    (ddRun M mt ty true K1 K2 zIn vi 0).1 = zIn := by
  induction zIn generalizing vi with
  | nil => rfl
  | cons x rest ih =>
    rw [ddRun]
    simp [ih]

/-- C5: every element of the phase-track output `theta_h` of
`DD_carrier_sync` lies in `[0, 2 * pi)` — the estimate is updated as
`theta_hat = mod(theta_hat + v, 2 * pi)` — and with `open_loop = True` the
phase applied to every sample's rotation is forced to `0`, so the rotated
sequence `z_prime` inside the loop equals its input sequence. -/
theorem DD_theta_h_range_and_open_loop (z : List ℂ) (M : ℕ) (BnTs zeta : ℝ)
    (mt : String) (ty : ℤ) (ol : Bool) {y : ℝ}
    (hy : y ∈ (DD_carrier_sync z M BnTs zeta mt ty ol).2.2.2) :
    (0 ≤ y ∧ y < 2 * Real.pi) ∧
    ∀ (zIn : List ℂ) (vi K1 K2 : ℝ),
      (ddRun M mt ty true K1 K2 zIn vi 0).1 = zIn := by
  constructor
  · apply ddRun_theta_mem M mt ty ol _ _ _ 0 0
    simpa [DD_carrier_sync] using hy
  · intro zIn vi K1 K2
    exact ddRun_open_loop_id M mt ty K1 K2 zIn vi

/-- Witness for C5 on the one-sample input `[0]` with BPSK decisions. -/
theorem DD_theta_h_range_and_open_loop_wit :
    (0 : ℝ) ∈ (DD_carrier_sync [0] 2 1 1 "MPSK" 0 false).2.2.2 ∧
    (((0 : ℝ) ≤ 0 ∧ (0 : ℝ) < 2 * Real.pi) ∧
      ∀ (zIn : List ℂ) (vi K1 K2 : ℝ),
        (ddRun 2 "MPSK" (0 : ℤ) true K1 K2 zIn vi 0).1 = zIn) := by
  have hmem : (0 : ℝ) ∈ (DD_carrier_sync [0] 2 1 1 "MPSK" 0 false).2.2.2 := by
    simp only [DD_carrier_sync, ddRun, ddDecision, ddError, if_pos]
    norm_num [pyMod]
  exact ⟨hmem,
    DD_theta_h_range_and_open_loop [0] 2 1 1 "MPSK" 0 false hmem⟩

theorem ddRun_invalid_type_zeros (M : ℕ) (mt : String) (ol : Bool)
    (K1 K2 : ℝ) (ty : ℤ) (hty : ¬(ty = 0 ∨ ty = 1 ∨ ty = 2))
    (zIn : List ℂ) (vi th : ℝ) :
    (ddRun M mt ty ol K1 K2 zIn vi th).2.2.1 =
      List.replicate zIn.length 0 ∧
    (ddRun M mt ty ol K1 K2 zIn vi th).2.2.2.length = zIn.length := by
  have he : ∀ zp ah, ddError ty zp ah = 0 := by
    intro zp ah
    rw [ddError, if_neg (by tauto), if_neg (by tauto), if_neg (by tauto)]
  induction zIn generalizing vi th with
  | nil => simp [ddRun]
  | cons x rest ih =>
    rw [ddRun]
    simp only [List.length_cons, List.replicate_succ, List.cons.injEq]
    refine ⟨⟨he _ _, (ih _ _).1⟩, by simpa using (ih _ _).2⟩

/-- C2 fails on the code: `DD_carrier_sync` called with the unsupported
detector type `3` does not fail fast — it prints `Type must be 0 or 1` each
sample, silently leaves the phase error at its zero default, and returns
full-length outputs.  Here it maps the one-sample input `[1 + i]` to the
phase-error array `[0]` and the phase-track array `[0]`. -/
theorem DD_invalid_type_continues_cex :
    (DD_carrier_sync [1 + Complex.I] 4 1 1 "MPSK" 3 false).2.2.1 = [0] ∧
    (DD_carrier_sync [1 + Complex.I] 4 1 1 "MPSK" 3 false).2.2.2 = [0] := by
  constructor
  · simp [DD_carrier_sync, ddRun, ddError]
  · simp [DD_carrier_sync, ddRun, ddError, pyMod]

/-- C2 amended: the listed configuration errors do not all fail fast.  The
oscillator bit-width check does — `NCO.__init__` raises
`NotImplementedError` for every width above 64 bits — but `DD_carrier_sync`
with an unsupported detector type does not: it merely prints a message each
sample and continues, producing a full-length phase-track output and a
phase-error array left at its all-zero default. -/
theorem config_errors_not_all_fail_fast :
    (∀ (fc fs kc : ℝ) (st : ℤ) (n : ℕ), 64 < n →
      NCO.make fc fs kc st n =
        Except.error "NotImplementedError: no dtype implemented for this bit size") ∧
    (∀ (z : List ℂ) (M : ℕ) (BnTs zeta : ℝ) (ol : Bool) (ty : ℤ),
      ¬(ty = 0 ∨ ty = 1 ∨ ty = 2) →
      (DD_carrier_sync z M BnTs zeta "MPSK" ty ol).2.2.1 =
        List.replicate z.length 0 ∧
      (DD_carrier_sync z M BnTs zeta "MPSK" ty ol).2.2.2.length = z.length) := by
  constructor
  · intro fc fs kc st n hn
    rw [NCO.make, if_neg (by omega)]
  · intro z M BnTs zeta ol ty hty
    constructor
    · simp only [DD_carrier_sync]
      simp only [show ("MPSK" = "MQAM") = False by simp, if_false]
      exact (ddRun_invalid_type_zeros M "MPSK" ol _ _ ty hty z 0 0).1
    · simp only [DD_carrier_sync]
      simp only [show ("MPSK" = "MQAM") = False by simp, if_false]
      exact (ddRun_invalid_type_zeros M "MPSK" ol _ _ ty hty z 0 0).2

/-- Witness for the amended C2 at bit width 65 and detector type 3. -/
theorem config_errors_not_all_fail_fast_wit :
    (64 < 65 ∧
      NCO.make 0 1 1 0 65 =
        Except.error "NotImplementedError: no dtype implemented for this bit size") ∧
    (¬((3 : ℤ) = 0 ∨ (3 : ℤ) = 1 ∨ (3 : ℤ) = 2) ∧
      (DD_carrier_sync [1] 4 1 1 "MPSK" 3 false).2.2.1 =
        List.replicate ([1] : List ℂ).length 0 ∧
      (DD_carrier_sync [1] 4 1 1 "MPSK" 3 false).2.2.2.length =
        ([1] : List ℂ).length) :=
  ⟨⟨by norm_num, config_errors_not_all_fail_fast.1 0 1 1 0 65 (by norm_num)⟩,
    ⟨by norm_num,
      config_errors_not_all_fail_fast.2 [1] 4 1 1 false 3 (by norm_num)⟩⟩

/-! ## Analog-equivalent complex-baseband PLL model (`PLL_cbb`) -/

/-- The trapezoidal simulation loop of `PLL_cbb` for loop types 1 and 2
(the `lt = 2` branch adds the integrator-with-lead filter; every other value
falls through to the proportional-only filter, as in the source `else`
branch).  State arguments: `filt_in_last`, `filt_out_last`, `vco_in_last`,
`vco_out_last`, `vco_out_cbb`.  Returns `(theta_hat, ev, phi)`. -/
def pllCbbRun (T K Kv tau2 : ℝ) (lt : ℤ) :
    List ℂ → ℝ → ℝ → ℝ → ℝ → ℂ → List ℝ × List ℝ × List ℝ
  | [], _, _, _, _, _ => ([], [], [])
  | x :: rest, fil, fol, vil, vol, vcbb => by
    exact
      let phi := (x * (starRingEnd ℂ) vcbb).im
      let gain_out := K / Kv * phi
      let fo2 :=
        if lt = 2 then fol + T / 2 * ((1 / tau2) * gain_out + fil) else fol
      let fil2 := if lt = 2 then (1 / tau2) * gain_out else fil
      let filt_out := if lt = 2 then fo2 + gain_out else gain_out
      let vco_in := filt_out
      let vco_out := vol + T / 2 * (vco_in + vil)
      let vco_out2 := Kv * vco_out
      let vcbb2 := Complex.exp (Complex.I * (vco_out2 : ℂ))
      let r := pllCbbRun T K Kv tau2 lt rest fil2 fo2 vco_in vco_out vcbb2
      (vco_out2 :: r.1, vco_in :: r.2.1, phi :: r.2.2)

/-- `PLL_cbb`.  The `loop_type = 3` configuration computes
`tau1 = K/((2*np.pi*fn)^2)`, and in Python `^` is bitwise xor, which raises
`TypeError` on a float — so that branch fails before the simulation loop.  A
loop type outside 1..3 warns and then hits `NameError` on the undefined
loop gain `K` at the first sample (or returns empty arrays on empty input). -/
def PLL_cbb (x : List ℂ) (fs : ℝ) (loop_type : ℤ) (Kv fn zeta : ℝ) :
    Except String (List ℝ × List ℝ × List ℝ) :=
  let T := 1 / fs
  let Kvr := 2 * Real.pi * Kv
  if loop_type = 1 then
    .ok (pllCbbRun T (2 * Real.pi * fn) Kvr 0 1 x 0 0 0 0 0)
  else if loop_type = 2 then
    .ok (pllCbbRun T (4 * Real.pi * zeta * fn) Kvr (zeta / (Real.pi * fn)) 2
      x 0 0 0 0 0)
  else if loop_type = 3 then
    .error "TypeError: unsupported operand type for xor: float and int"
  else if x.isEmpty then .ok ([], [], [])
  else .error "NameError: name K is not defined"

/-- C7 fails on the code: for EVERY input and parameter set, `PLL_cbb` with
`loop_type = 3` raises `TypeError` while computing
`tau1 = K/((2*np.pi*fn)^2)` — the exponent uses `^` (bitwise xor, invalid on
a float) where `PLL1` uses `**` — so the trapezoidal loop is never run and no
output sequences are returned. -/
theorem PLL_cbb_type3_raises (x : List ℂ) (fs Kv fn zeta : ℝ) :
    PLL_cbb x fs 3 Kv fn zeta =
      Except.error "TypeError: unsupported operand type for xor: float and int" := by
  rw [PLL_cbb]
  norm_num

/-! ## Stateful discriminator and the pre-built PLL/AFC loops -/

structure Discriminator where
  f_clk : ℝ
  state : ℂ

/-- `Discriminator.update` with the default `f_clk_units = True`: the
quadricorrelator output together with the updated state. -/
def Discriminator.updateStep (d : Discriminator) (x_in : ℂ) : ℝ × Discriminator :=
  let der := x_in - d.state
  let dis := (x_in.re * der.im - x_in.im * der.re) / Complex.abs x_in ^ 2
  (dis * (d.f_clk / (2 * Real.pi)), { d with state := x_in })

/-- The per-sample loop of `cbb_pll`; returns
`(y_d_pll, y_lf_pll, x_NCO_pll)`. -/
def cbbPllRun (k_d : ℝ) (pll_open : Bool) :
    List ℂ → NCO → LoopFilter2 → ℝ → List ℝ × List ℝ × List ℂ
  | [], _, _, _ => ([], [], [])
  | x :: rest, nco, lf, yOld => by
    exact
      let nco2 := nco.update (if pll_open then 0 else yOld)
      let xN := nco2.outExp
      let yD := (x * (starRingEnd ℂ) xN).im
      let s := lf.filterStep (k_d * yD)
      let r := cbbPllRun k_d pll_open rest nco2 s.2 s.1
      (yD :: r.1, s.1 :: r.2.1, xN :: r.2.2)

/-- `cbb_pll`. -/
def cbb_pll (x : List ℂ) (bn_pll k_d fc_pll f_clk_pll : ℝ) (pll_open : Bool) :
    List ℝ × List ℝ × List ℂ :=
  let p := loop_parms2 bn_pll 0.707 (2 * Real.pi) f_clk_pll
  cbbPllRun k_d pll_open x (NCO.init fc_pll f_clk_pll 1 0 32) ⟨p.1, p.2, ⟨0⟩⟩ 0

/-- The per-sample loop of `cbb_afc`; returns
`(y_d_afc, y_lf_afc, x_out_afc, x_NCO_afc)` — the last component is the
internal NCO output array, which `cbb_afc` itself does not return. -/
def cbbAfcRun (afc_open : Bool) (f_clk : ℝ) :
    List ℂ → NCO → Discriminator → LoopFilter1 → ℝ →
      List ℝ × List ℝ × List ℂ × List ℂ
  | [], _, _, _, _ => ([], [], [], [])
  | x :: rest, nco, ds, lf, yOld => by
    exact
      let nco2 := nco.update (if afc_open then 0 else yOld / f_clk)
      let xN := nco2.outExp
      let xOut := x * (starRingEnd ℂ) xN
      let u := ds.updateStep xOut
      let s := lf.filterStep u.1
      let r := cbbAfcRun afc_open f_clk rest nco2 u.2 s.2 s.1
      (u.1 :: r.1, s.1 :: r.2.1, xOut :: r.2.2.1, xN :: r.2.2.2)

/-- `cbb_afc`: returns `(y_d_afc, y_lf_afc, x_out_afc)`. -/
def cbb_afc (x : List ℂ) (bn_afc k_d fc_afc f_clk_afc : ℝ) (afc_open : Bool) :
    List ℝ × List ℝ × List ℂ :=
  let r := cbbAfcRun afc_open f_clk_afc x (NCO.init fc_afc f_clk_afc 1 0 32)
    ⟨f_clk_afc, 0⟩ ⟨loop_parms1 bn_afc 1 f_clk_afc, ⟨0⟩⟩ 0
  (r.1, r.2.1, r.2.2.1)

theorem cbbPllRun_open_nco_indep (k_d : ℝ) (x1 x2 : List ℂ)
    (h : x1.length = x2.length) :
    ∀ (nco : NCO) (lf1 lf2 : LoopFilter2) (y1 y2 : ℝ),
      (cbbPllRun k_d true x1 nco lf1 y1).2.2 =
        (cbbPllRun k_d true x2 nco lf2 y2).2.2 := by
  induction x1 generalizing x2 with
  | nil =>
    cases x2 with
    | nil => intro nco lf1 lf2 y1 y2; rfl
    | cons b bs => simp at h
  | cons a as ih =>
    cases x2 with
    | nil => simp at h
    | cons b bs =>
      intro nco lf1 lf2 y1 y2
      rw [cbbPllRun, cbbPllRun]
      simp only [List.cons.injEq]
      exact ⟨rfl, ih bs (by simpa using h) _ _ _ _ _⟩

theorem cbbAfcRun_open_nco_indep (f_clk : ℝ) (x1 x2 : List ℂ)
    (h : x1.length = x2.length) :
    ∀ (nco : NCO) (d1 d2 : Discriminator) (lf1 lf2 : LoopFilter1) (y1 y2 : ℝ),
      (cbbAfcRun true f_clk x1 nco d1 lf1 y1).2.2.2 =
        (cbbAfcRun true f_clk x2 nco d2 lf2 y2).2.2.2 := by
  induction x1 generalizing x2 with
  | nil =>
    cases x2 with
    | nil => intro nco d1 d2 lf1 lf2 y1 y2; rfl
    | cons b bs => simp at h
  | cons a as ih =>
    cases x2 with
    | nil => simp at h
    | cons b bs =>
      intro nco d1 d2 lf1 lf2 y1 y2
      rw [cbbAfcRun, cbbAfcRun]
      simp only [List.cons.injEq]
      exact ⟨rfl, ih bs (by simpa using h) _ _ _ _ _ _ _⟩

/-- C10: with the open-loop flag set the oscillator is stepped with a
constant zero error, so the NCO output sequence depends only on the
configuration and the input length: `cbb_pll` with `pll_open = True` returns
the same `x_NCO_pll` for any two equal-length inputs, and the `cbb_afc` loop
with `afc_open = True` produces the same internal `x_NCO_afc`. -/
theorem open_loop_nco_independent (x1 x2 : List ℂ)
    (h : x1.length = x2.length) (bn k_d fc f_clk : ℝ) :
    (cbb_pll x1 bn k_d fc f_clk true).2.2 =
      (cbb_pll x2 bn k_d fc f_clk true).2.2 ∧
    (cbbAfcRun true f_clk x1 (NCO.init fc f_clk 1 0 32) ⟨f_clk, 0⟩
        ⟨loop_parms1 bn 1 f_clk, ⟨0⟩⟩ 0).2.2.2 =
      (cbbAfcRun true f_clk x2 (NCO.init fc f_clk 1 0 32) ⟨f_clk, 0⟩
        ⟨loop_parms1 bn 1 f_clk, ⟨0⟩⟩ 0).2.2.2 :=
  ⟨cbbPllRun_open_nco_indep k_d x1 x2 h _ _ _ _ _,
    cbbAfcRun_open_nco_indep f_clk x1 x2 h _ _ _ _ _ _ _⟩

/-- Witness for C10 on the distinct equal-length inputs `[1]` and `[i]`. -/
theorem open_loop_nco_independent_wit :
    ([(1 : ℂ)].length = [Complex.I].length) ∧
    ((cbb_pll [1] 1 1 0 100 true).2.2 =
        (cbb_pll [Complex.I] 1 1 0 100 true).2.2 ∧
      (cbbAfcRun true 100 [1] (NCO.init 0 100 1 0 32) ⟨100, 0⟩
          ⟨loop_parms1 1 1 100, ⟨0⟩⟩ 0).2.2.2 =
        (cbbAfcRun true 100 [Complex.I] (NCO.init 0 100 1 0 32) ⟨100, 0⟩
          ⟨loop_parms1 1 1 100, ⟨0⟩⟩ 0).2.2.2) :=
  ⟨rfl, open_loop_nco_independent [1] [Complex.I] rfl 1 1 0 100⟩

/-! ## Non-data-aided symbol synchronizer (`NDA_symb_sync`) -/

/-- Python list slice `l[:s]` with a possibly negative bound `s`. -/
def pyTake {α : Type} (l : List α) (s : ℤ) : List α :=
  if 0 ≤ s then l.take s.toNat else l.take (l.length - (-s).toNat)

structure NDAState where
  vi : ℝ
  CNT : ℝ
  mu : ℝ
  uf : Bool
  eps : ℝ
  mm : ℕ
  zz : List ℂ
  e_tau : List ℝ
  c1buf : List ℂ

/-- Farrow interpolant of order `i_ord` at index `nn` of the padded input
`zp` (source lines 90-107; the reversed slice `z[nn+2:nn-2:-1]` is
`[z[nn+2], z[nn+1], z[nn], z[nn-1]]`).  An order outside 1..3 only logs an
error in the source and leaves no interpolant. -/
def farrow (zp : List ℂ) (i_ord : ℕ) (nn : ℕ) (mu : ℝ) : ℂ :=
  let z : ℕ → ℂ := fun j => zp.getD j 0
  if i_ord = 1 then
    (mu : ℂ) * z nn + (1 - (mu : ℂ)) * z (nn - 1)
  else if i_ord = 2 then
    let v2 := (1 / 2 : ℂ) * (z (nn + 2) - z (nn + 1) - z nn + z (nn - 1))
    let v1 := (1 / 2 : ℂ) * (-z (nn + 2) + 3 * z (nn + 1) - z nn - z (nn - 1))
    ((mu : ℂ) * v2 + v1) * (mu : ℂ) + z nn
  else if i_ord = 3 then
    let v3 := (1 / 6 : ℂ) * z (nn + 2) - (1 / 2 : ℂ) * z (nn + 1) +
      (1 / 2 : ℂ) * z nn - (1 / 6 : ℂ) * z (nn - 1)
    let v2 := (1 / 2 : ℂ) * z (nn + 1) - z nn + (1 / 2 : ℂ) * z (nn - 1)
    let v1 := -(1 / 6 : ℂ) * z (nn + 2) + z (nn + 1) - (1 / 2 : ℂ) * z nn -
      (1 / 3 : ℂ) * z (nn - 1)
    (((mu : ℂ) * v3 + v2) * (mu : ℂ) + v1) * (mu : ℂ) + z nn
  else 0

/-- One timing-error-detector statistic `c1`, averaged over the `Ns`
interpolants of the symbol (source lines 112-133). -/
def ndaC1 (zp : List ℂ) (Ns i_ord nn : ℕ) (mu : ℝ) : ℂ :=
  (∑ kk in Finset.range Ns,
    (Complex.normSq (farrow zp i_ord (nn + kk) mu) : ℂ) *
      Complex.exp (-Complex.I * (2 * Real.pi / (Ns : ℝ) * (kk : ℝ) : ℝ))) /
    (Ns : ℂ)

/-- The underflow-event stage of one loop iteration (source lines 89-141):
interpolate, push the TED statistic into the smoothing buffer, recompute the
smoothed timing error, and log the interpolant and error at index `mm`. -/
def ndaEvent (zp : List ℂ) (Ns L i_ord nn : ℕ) (s : NDAState) : NDAState :=
  if s.uf then
    let z_interp := farrow zp i_ord nn s.mu
    let c1 := ndaC1 zp Ns i_ord nn s.mu
    let buf := c1 :: s.c1buf.dropLast
    let eps := -(1 / (2 * Real.pi)) * (buf.sum / ((2 * L + 1 : ℕ) : ℂ)).arg
    { s with
      zz := s.zz.set s.mm z_interp
      e_tau := s.e_tau.set s.mm eps
      mm := s.mm + 1
      eps := eps
      c1buf := buf }
  else s

/-- One full iteration of the `NDA_symb_sync` tracking loop (source lines
86-160): the event stage followed by the loop filter and the modulo-1
down-counter register update. -/
def ndaStep (zp : List ℂ) (Ns L i_ord : ℕ) (K1 K2 : ℝ) (nn : ℕ)
    (s : NDAState) : NDAState :=
  let s1 := ndaEvent zp Ns L i_ord nn s
  let vi := s1.vi + K2 * s1.eps
  let v := K1 * s1.eps + vi
  let W := 1 / (Ns : ℝ) + v
  let c := s1.CNT - W
  if c < 0 then
    { s1 with vi := vi, CNT := c + 1, uf := true, mu := s1.CNT / W }
  else
    { s1 with vi := vi, CNT := c, uf := false, mu := s1.mu }

/-- The counter control word `W = 1/Ns + v` of one iteration, where `v` is
this iteration's loop-filter output. -/
def ndaW (zp : List ℂ) (Ns L i_ord : ℕ) (K1 K2 : ℝ) (nn : ℕ)
    (s : NDAState) : ℝ :=
  let s1 := ndaEvent zp Ns L i_ord nn s
  1 / (Ns : ℝ) + (K1 * s1.eps + (s1.vi + K2 * s1.eps))

/-- Iterations `nn = 1, ..., k` of the tracking loop. -/
def ndaIterate (zp : List ℂ) (Ns L i_ord : ℕ) (K1 K2 : ℝ)
    (s0 : NDAState) : ℕ → NDAState
  | 0 => s0
  | k + 1 => ndaStep zp Ns L i_ord K1 K2 (k + 1)
      (ndaIterate zp Ns L i_ord K1 K2 s0 k)

/-- The loop iteration count: `range(1, Ns*int(np.floor(len(z)/Ns-(Ns-1))))`
on the padded input of length `N + 1` has this many elements. -/
def ndaIter (N Ns : ℕ) : ℕ :=
  ((Ns : ℤ) * ((((N + 1) / Ns : ℕ) : ℤ) - ((Ns : ℤ) - 1)) - 1).toNat

/-- The initial loop state of `NDA_symb_sync` for an input of length `N`. -/
def ndaInit (N L : ℕ) : NDAState :=
  ⟨0, 0, 0, false, 0, 1, List.replicate N 0, List.replicate N 0,
    List.replicate (2 * L + 1) 0⟩

/-- The final loop state of `NDA_symb_sync` (loop-filter gains from source
lines 67-70, with `K0 = -1`, `Kp = 1`). -/
def ndaFinal (z : List ℂ) (Ns L : ℕ) (BnTs zeta : ℝ) (i_ord : ℕ) : NDAState :=
  ndaIterate ((0 : ℂ) :: z) Ns L i_ord
    (4 * zeta / (zeta + 1 / (4 * zeta)) * BnTs / (Ns : ℝ) / 1 / (-1))
    (4 / (zeta + 1 / (4 * zeta)) ^ 2 * (BnTs / (Ns : ℝ)) ^ 2 / 1 / (-1))
    (ndaInit z.length L) (ndaIter z.length Ns)

/-- Pre-normalization decimated output: the `zz` buffer after the trailing
slice `zz[:-(len(zz)-mm+1)]`. -/
def ndaZZPre (z : List ℂ) (Ns L : ℕ) (BnTs zeta : ℝ) (i_ord : ℕ) : List ℂ :=
  let s := ndaFinal z Ns L BnTs zeta i_ord
  pyTake s.zz ((s.mm : ℤ) - (z.length : ℤ) - 1)

/-- The timing-error output after the trailing slice. -/
def ndaETau (z : List ℂ) (Ns L : ℕ) (BnTs zeta : ℝ) (i_ord : ℕ) : List ℝ :=
  let s := ndaFinal z Ns L BnTs zeta i_ord
  pyTake s.e_tau ((s.mm : ℤ) - (z.length : ℤ) - 1)

/-- `NDA_symb_sync`: returns `(zz, e_tau)`, with `zz` normalized to unit
standard deviation. -/
def NDA_symb_sync (z : List ℂ) (Ns L : ℕ) (BnTs zeta : ℝ) (i_ord : ℕ) :
    List ℂ × List ℝ :=
  let zzp := ndaZZPre z Ns L BnTs zeta i_ord
  (zzp.map fun w => w / ((listStd zzp : ℝ) : ℂ), ndaETau z Ns L BnTs zeta i_ord)

theorem ndaEvent_CNT (zp : List ℂ) (Ns L i_ord nn : ℕ) (s : NDAState) :
    (ndaEvent zp Ns L i_ord nn s).CNT = s.CNT := by
  rw [ndaEvent]
  split <;> rfl

theorem ndaEvent_mu (zp : List ℂ) (Ns L i_ord nn : ℕ) (s : NDAState) :
    (ndaEvent zp Ns L i_ord nn s).mu = s.mu := by
  rw [ndaEvent]
  split <;> rfl

/-- C4: each loop iteration of `NDA_symb_sync` decrements the modulo-1
counter by the control word `W = 1/Ns + v` (`v` the current loop-filter
output); the underflow flag for the next iteration is set exactly when
`CNT - W < 0`, in which case the counter is reduced modulo 1 by adding 1 and
the fractional phase becomes `CNT / W`, and otherwise `mu` is held. -/
theorem NDA_counter_update (zp : List ℂ) (Ns L i_ord : ℕ) (K1 K2 : ℝ)
    (nn : ℕ) (s : NDAState) :
    ((ndaStep zp Ns L i_ord K1 K2 nn s).uf = true ↔
      s.CNT - ndaW zp Ns L i_ord K1 K2 nn s < 0) ∧
    (ndaStep zp Ns L i_ord K1 K2 nn s).CNT =
      (if s.CNT - ndaW zp Ns L i_ord K1 K2 nn s < 0 then
        s.CNT - ndaW zp Ns L i_ord K1 K2 nn s + 1
      else s.CNT - ndaW zp Ns L i_ord K1 K2 nn s) ∧
    (ndaStep zp Ns L i_ord K1 K2 nn s).mu =
      (if s.CNT - ndaW zp Ns L i_ord K1 K2 nn s < 0 then
        s.CNT / ndaW zp Ns L i_ord K1 K2 nn s
      else s.mu) := by
  rw [ndaStep, ndaW]
  simp only [ndaEvent_CNT, ndaEvent_mu]
  split <;> simp_all

theorem ndaIter_le (N Ns : ℕ) (hNs : 1 ≤ Ns) : ndaIter N Ns ≤ N := by
  rw [ndaIter, Int.toNat_le]
  have h1 : ((N + 1) / Ns : ℕ) * (Ns : ℤ) ≤ (N : ℤ) + 1 := by
    exact_mod_cast Nat.div_mul_le_self (N + 1) Ns
  have h2 : (0 : ℤ) ≤ (Ns : ℤ) * ((Ns : ℤ) - 1) := by
    apply mul_nonneg (Int.ofNat_nonneg Ns)
    omega
  nlinarith

/-- The bookkeeping invariant of the `NDA_symb_sync` loop after `k`
iterations on an input of length `N`. -/
def ndaInv (N k : ℕ) (s : NDAState) : Prop :=
  (k = 0 → s.uf = false) ∧
  1 ≤ s.mm ∧
  s.mm ≤ max 1 k ∧
  s.zz.length = N ∧
  s.e_tau.length = N ∧
  s.e_tau.getD 0 0 = 0 ∧
  s.zz.getD 0 0 = 0 ∧
  (2 ≤ s.mm → s.e_tau.getD (s.mm - 1) 0 = s.eps)

theorem ndaInv_init (N L : ℕ) : ndaInv N 0 (ndaInit N L) := by
  refine ⟨fun _ => rfl, le_refl 1, by simp [ndaInit], by simp [ndaInit],
    by simp [ndaInit], ?_, ?_, by simp [ndaInit]⟩ <;>
  · show (List.replicate N _).getD 0 _ = _
    cases N <;> simp [List.getD_eq_getElem?_getD]

theorem ndaInv_step (zp : List ℂ) (Ns L i_ord : ℕ) (K1 K2 : ℝ)
    (N k : ℕ) (s : NDAState) (hk : k + 1 ≤ N) (h : ndaInv N k s) :
    ndaInv N (k + 1) (ndaStep zp Ns L i_ord K1 K2 (k + 1) s) := by
  obtain ⟨h0, hmm1, hmmk, hlz, hle, hgz, hge, heps⟩ := h
  have hstep : ∀ t : NDAState, t.mm = (ndaEvent zp Ns L i_ord (k + 1) s).mm →
      t.zz = (ndaEvent zp Ns L i_ord (k + 1) s).zz →
      t.e_tau = (ndaEvent zp Ns L i_ord (k + 1) s).e_tau →
      t.eps = (ndaEvent zp Ns L i_ord (k + 1) s).eps →
      ndaInv N (k + 1) t := by
    intro t ht1 ht2 ht3 ht4
    by_cases huf : s.uf
    · -- an underflow event was pending: index `mm` of each buffer is written
      have hk1 : 1 ≤ k := by
        rcases Nat.eq_zero_or_pos k with hk0 | hk0
        · exact absurd (h0 hk0) (by simp [huf])
        · exact hk0
      have hmmk' : s.mm ≤ k := by
        have := hmmk
        rwa [max_eq_right hk1] at this
      have hmmN : s.mm < N := by omega
      have hev : (ndaEvent zp Ns L i_ord (k + 1) s).mm = s.mm + 1 ∧
          (ndaEvent zp Ns L i_ord (k + 1) s).zz =
            s.zz.set s.mm (farrow zp i_ord (k + 1) s.mu) ∧
          (ndaEvent zp Ns L i_ord (k + 1) s).e_tau =
            s.e_tau.set s.mm
              (-(1 / (2 * Real.pi)) *
                ((ndaC1 zp Ns i_ord (k + 1) s.mu :: s.c1buf.dropLast).sum /
                  ((2 * L + 1 : ℕ) : ℂ)).arg) ∧
          (ndaEvent zp Ns L i_ord (k + 1) s).eps =
            -(1 / (2 * Real.pi)) *
              ((ndaC1 zp Ns i_ord (k + 1) s.mu :: s.c1buf.dropLast).sum /
                ((2 * L + 1 : ℕ) : ℂ)).arg := by
        rw [ndaEvent, if_pos huf]
        exact ⟨rfl, rfl, rfl, rfl⟩
      rw [ndaInv, ht1, hev.1, ht2, hev.2.1, ht3, hev.2.2.1, ht4, hev.2.2.2]
      have hmax : max 1 (k + 1) = k + 1 := max_eq_right (by omega)
      refine ⟨fun hc => absurd hc (Nat.succ_ne_zero k), by omega,
        by rw [hmax]; omega, by simp [hlz], by simp [hle], ?_, ?_, ?_⟩
      · rw [List.getD_eq_getElem?_getD, List.getElem?_set_ne (by omega),
          ← List.getD_eq_getElem?_getD]
        exact hgz
      · rw [List.getD_eq_getElem?_getD, List.getElem?_set_ne (by omega),
          ← List.getD_eq_getElem?_getD]
        exact hge
      · intro _
        rw [Nat.add_sub_cancel, List.getD_eq_getElem?_getD,
          List.getElem?_set_self (by omega : s.mm < s.e_tau.length)]
        rfl
    · -- no event: the buffers are untouched
      have hev : ndaEvent zp Ns L i_ord (k + 1) s = s := by
        rw [ndaEvent, if_neg huf]
      rw [hev] at ht1 ht2 ht3 ht4
      rw [ndaInv, ht1, ht2, ht3, ht4]
      have hmax : s.mm ≤ max 1 (k + 1) :=
        le_trans hmmk (max_le_max (le_refl 1) (by omega))
      exact ⟨fun hc => absurd hc (Nat.succ_ne_zero k), hmm1, hmax, hlz, hle,
        hgz, hge, heps⟩
  rw [ndaStep]
  split
  · exact hstep _ rfl rfl rfl rfl
  · exact hstep _ rfl rfl rfl rfl

theorem ndaInv_iterate (zp : List ℂ) (Ns L i_ord : ℕ) (K1 K2 : ℝ)
    (N L2 : ℕ) (k : ℕ) (hk : k ≤ N) :
    ndaInv N k (ndaIterate zp Ns L i_ord K1 K2 (ndaInit N L2) k) := by
  induction k with
  | zero => exact ndaInv_init N L2
  | succ k ih =>
    exact ndaInv_step zp Ns L i_ord K1 K2 N k _ hk (ih (by omega))

/-- C9: when `NDA_symb_sync` records `u >= 1` underflow events (each event
increments `mm`, so the final `mm` is `u + 1`), both returned arrays have
length exactly `u`; their index-0 entries are the zero-initialized
placeholders never written by any symbol event (`e_tau[0] = 0`, and
`zz[0] = 0` before the final standard-deviation normalization); both outputs
are the first `u` entries of the internal buffers, while the timing error
produced by the u-th (final) event sits at buffer index `u` — the slot the
trailing slice drops. -/
theorem NDA_output_bookkeeping (z : List ℂ) (Ns L : ℕ) (BnTs zeta : ℝ)
    (i_ord : ℕ) (u : ℕ) (hNs : 1 ≤ Ns)
    (_hI : i_ord = 1 ∨ i_ord = 2 ∨ i_ord = 3)
    (hmm : (ndaFinal z Ns L BnTs zeta i_ord).mm = u + 1) (hu : 1 ≤ u) :
    (NDA_symb_sync z Ns L BnTs zeta i_ord).1.length = u ∧
    (NDA_symb_sync z Ns L BnTs zeta i_ord).2.length = u ∧
    (NDA_symb_sync z Ns L BnTs zeta i_ord).2.getD 0 0 = 0 ∧
    (ndaZZPre z Ns L BnTs zeta i_ord).getD 0 0 = 0 ∧
    ndaZZPre z Ns L BnTs zeta i_ord =
      (ndaFinal z Ns L BnTs zeta i_ord).zz.take u ∧
    (NDA_symb_sync z Ns L BnTs zeta i_ord).2 =
      (ndaFinal z Ns L BnTs zeta i_ord).e_tau.take u ∧
    (ndaFinal z Ns L BnTs zeta i_ord).e_tau.getD u 0 =
      (ndaFinal z Ns L BnTs zeta i_ord).eps := by
  have hTN : ndaIter z.length Ns ≤ z.length := ndaIter_le z.length Ns hNs
  have hinv : ndaInv z.length (ndaIter z.length Ns)
      (ndaFinal z Ns L BnTs zeta i_ord) := by
    rw [ndaFinal]
    exact ndaInv_iterate _ Ns L i_ord _ _ z.length L _ hTN
  obtain ⟨-, hmm1, hmmk, hlz, hle, hgz, hge, heps⟩ := hinv
  have hT2 : 2 ≤ ndaIter z.length Ns := by
    rcases Nat.lt_or_ge (ndaIter z.length Ns) 2 with hlt | hge2
    · exfalso
      have : max 1 (ndaIter z.length Ns) = 1 := by
        have h1 : ndaIter z.length Ns ≤ 1 := by omega
        simp [Nat.max_eq_left h1]
      omega
    · exact hge2
  have huN : u + 1 ≤ z.length := by
    have : max 1 (ndaIter z.length Ns) = ndaIter z.length Ns :=
      max_eq_right (by omega)
    omega
  have hsliceE : ndaETau z Ns L BnTs zeta i_ord =
      (ndaFinal z Ns L BnTs zeta i_ord).e_tau.take u := by
    rw [ndaETau, pyTake, hmm, if_neg (by omega), hle]
    congr 1
    omega
  have hsliceZ : ndaZZPre z Ns L BnTs zeta i_ord =
      (ndaFinal z Ns L BnTs zeta i_ord).zz.take u := by
    rw [ndaZZPre, pyTake, hmm, if_neg (by omega), hlz]
    congr 1
    omega
  have h2 : (NDA_symb_sync z Ns L BnTs zeta i_ord).2 =
      (ndaFinal z Ns L BnTs zeta i_ord).e_tau.take u := hsliceE
  refine ⟨?_, ?_, ?_, ?_, hsliceZ, h2, ?_⟩
  · show ((ndaZZPre z Ns L BnTs zeta i_ord).map _).length = u
    rw [List.length_map, hsliceZ, List.length_take, hlz]
    omega
  · rw [h2, List.length_take, hle]
    omega
  · rw [h2, List.getD_eq_getElem?_getD, List.getElem?_take,
      if_pos (by omega : 0 < u), ← List.getD_eq_getElem?_getD]
    exact hgz
  · rw [hsliceZ, List.getD_eq_getElem?_getD, List.getElem?_take,
      if_pos (by omega : 0 < u), ← List.getD_eq_getElem?_getD]
    exact hge
  · have := heps (by omega)
    rwa [hmm, Nat.add_sub_cancel] at this

/-- Witness for C9: on the all-zero two-sample input with `Ns = 1`, `L = 0`
and linear interpolation the loop runs twice, the second iteration records
the single underflow event, and the final `mm` is 2 (`u = 1`). -/
theorem NDA_output_bookkeeping_wit :
    ((1 : ℕ) ≤ 1 ∧ ((1 : ℕ) = 1 ∨ (1 : ℕ) = 2 ∨ (1 : ℕ) = 3) ∧
      (ndaFinal [0, 0] 1 0 1 1 1).mm = 1 + 1 ∧ (1 : ℕ) ≤ 1) ∧
    ((NDA_symb_sync [0, 0] 1 0 1 1 1).1.length = 1 ∧
      (NDA_symb_sync [0, 0] 1 0 1 1 1).2.length = 1 ∧
      (NDA_symb_sync [0, 0] 1 0 1 1 1).2.getD 0 0 = 0 ∧
      (ndaZZPre [0, 0] 1 0 1 1 1).getD 0 0 = 0 ∧
      ndaZZPre [0, 0] 1 0 1 1 1 = (ndaFinal [0, 0] 1 0 1 1 1).zz.take 1 ∧
      (NDA_symb_sync [0, 0] 1 0 1 1 1).2 =
        (ndaFinal [0, 0] 1 0 1 1 1).e_tau.take 1 ∧
      (ndaFinal [0, 0] 1 0 1 1 1).e_tau.getD 1 0 =
        (ndaFinal [0, 0] 1 0 1 1 1).eps) := by
  have key : ∀ K1 K2 : ℝ,
      (ndaIterate [(0 : ℂ), 0, 0] 1 0 1 K1 K2 (ndaInit 2 0) 2).mm = 2 := by
    intro K1 K2
    have hev1 : ndaEvent [(0 : ℂ), 0, 0] 1 0 1 1 (ndaInit 2 0) =
        ndaInit 2 0 := by
      rw [ndaEvent]
      simp [ndaInit]
    have hs1 : ndaStep [(0 : ℂ), 0, 0] 1 0 1 K1 K2 1 (ndaInit 2 0) =
        ⟨0, 0, 0, true, 0, 1, [0, 0], [0, 0], [0]⟩ := by
      rw [ndaStep, hev1]
      simp only [ndaInit]
      norm_num [List.replicate]
    have hev2 : ndaEvent [(0 : ℂ), 0, 0] 1 0 1 2
        ⟨0, 0, 0, true, 0, 1, [0, 0], [0, 0], [0]⟩ =
        ⟨0, 0, 0, true, 0, 2, [0, 0], [0, 0], [0]⟩ := by
      rw [ndaEvent]
      norm_num [farrow, ndaC1, Finset.sum_range_one, Complex.arg_zero]
    have hs2 : ndaStep [(0 : ℂ), 0, 0] 1 0 1 K1 K2 2
        ⟨0, 0, 0, true, 0, 1, [0, 0], [0, 0], [0]⟩ =
        ⟨0, 0, 0, true, 0, 2, [0, 0], [0, 0], [0]⟩ := by
      rw [ndaStep, hev2]
      norm_num
    show (ndaStep [(0 : ℂ), 0, 0] 1 0 1 K1 K2 2
      (ndaStep [(0 : ℂ), 0, 0] 1 0 1 K1 K2 1 (ndaInit 2 0))).mm = 2
    rw [hs1, hs2]
  have hmm2 : (ndaFinal [(0 : ℂ), 0] 1 0 1 1 1).mm = 1 + 1 := by
    rw [ndaFinal]
    rw [show ([(0 : ℂ), 0]).length = 2 from rfl]
    rw [show ndaIter 2 1 = 2 from by decide]
    exact key _ _
  exact ⟨⟨le_refl 1, Or.inl rfl, hmm2, le_refl 1⟩,
    NDA_output_bookkeeping [0, 0] 1 0 1 1 1 1 (le_refl 1) (Or.inl rfl) hmm2
      (le_refl 1)⟩

end Sync
